import Mathlib

/-!
# pingtunnel client engine (`client.go`)

A shallow embedding of the client side of the ICMP tunnel: the connection
registry (two Go maps sharing `*ClientConn` pointers), the UDP acceptor, the
inbound dispatcher `processPacket`, the reaper `checkTimeoutConn` with `Close`,
the liveness `ping`, the statistics reset `showNet`, the catch-up sender
`sendCatch`, and the catch ticker period computed by `Run`.

Conventions of the embedding.

* Go pointers `*ClientConn` are natural numbers; `Client.heap` maps a pointer to
  the record it refers to and `Client.nextPtr` is the next address the
  allocator hands out (`&ClientConn{...}`).
* A Go `map[string]*ClientConn` is an association list; the order of the list is
  the order in which a `range` loop visits the entries (Go leaves it
  unspecified, and every order is some list).
* `time.Now()`, `UniqueId()`, the datagram a socket read receives and the error
  result of a socket write are inputs of the step that uses them.
* Calls of `sendICMP` and of `WriteToUDP` are recorded, with their arguments,
  in the traces `Client.icmpOut` and `Client.udpOut`.
* Go `int`/`int64` arithmetic wraps at 64 bits (`wrapInt64`), `uint64` counters
  wrap modulo `2^64` (`wrapUint64`).
-/

namespace Pingtunnel

/-! ## Machine integers and time -/

/-- Two's-complement wrap of an integer into the range of Go's `int64`
(and of `int` on a 64-bit platform). -/
def wrapInt64 (x : Int) : Int := (x + 2 ^ 63) % 2 ^ 64 - 2 ^ 63

/-- Wrap of a natural number into the range of Go's `uint64`. -/
def wrapUint64 (x : Nat) : Nat := x % 2 ^ 64

/-- Smallest `time.Duration` (nanoseconds, `int64`). -/
def minDuration : Int := -(2 ^ 63)

/-- Largest `time.Duration` (nanoseconds, `int64`). -/
def maxDuration : Int := 2 ^ 63 - 1

/-- The constant `time.Second`, in nanoseconds. -/
def Second : Int := 1000000000

/-- The constant `time.Millisecond`, in nanoseconds. -/
def Millisecond : Int := 1000000

/-- The method `Time.Sub` of the Go standard library on two clock readings given
in nanoseconds: the difference `t - u`, saturated to the range of `Duration`. -/
def timeSub (t u : Int) : Int :=
  if t - u > maxDuration then maxDuration
  else if t - u < minDuration then minDuration
  else t - u

/-! ## Data model -/

/-- Modelled from the spec: the message kinds `DATA`, `PING`, `CATCH` carried in
`Packet.msgType`; the constants are declared outside `client.go`. `OTHER v`
stands for any wire value that is none of the three. -/
inductive MsgType where
  | DATA
  | PING
  | CATCH
  | OTHER (v : Nat)
deriving DecidableEq, Repr

/-- Modelled from the spec: the decoded inbound record `Packet`, declared outside
`client.go`; the fields are the ones `processPacket` reads. -/
structure Packet where
  msgType : MsgType
  data : List Nat
  id : String
  rproto : Int
  key : Int
  echoId : Int
  src : String
deriving DecidableEq, Repr

/-- The struct `ClientConn`. An address pointer (`*net.UDPAddr`, `*net.TCPAddr`)
is `none` when nil and otherwise holds the text its `String()` method returns.
The ring buffers `sendb`/`recvb` are left out: no modelled function reads them. -/
structure ClientConn where
  ipaddr : Option String
  tcpaddr : Option String
  id : String
  activeTime : Int
  close : Bool
deriving DecidableEq, Repr

/-- The method `String()` of `*net.UDPAddr`: a nil pointer prints as `<nil>`. -/
def addrString : Option String → String
  | none => "<nil>"
  | some a => a

/-- One recorded call of `sendICMP`, with the arguments of the call. -/
structure ICMPSend where
  echoId : Int
  sequence : Int
  server : String
  target : String
  connId : String
  msgType : MsgType
  data : List Nat
  sproto : Int
  rproto : Int
  catchRate : Int
  key : Int
deriving DecidableEq, Repr

/-- One recorded call of `p.listenConn.WriteToUDP(data, addr)`. -/
structure LocalWrite where
  data : List Nat
  addr : Option String
deriving DecidableEq, Repr

/-- A Go `map[string]*ClientConn`. -/
abbrev ConnMap := List (String × Nat)

/-- Map read `m[k]`; `none` is the nil pointer Go returns for an absent key. -/
def mapGet : ConnMap → String → Option Nat
  | [], _ => none
  | e :: m, k => if e.1 = k then some e.2 else mapGet m k

/-- The builtin `delete(m, k)`. -/
def mapDelete (m : ConnMap) (k : String) : ConnMap :=
  m.filter (fun e => decide (e.1 ≠ k))

/-- Map write `m[k] = v`. -/
def mapSet (m : ConnMap) (k : String) (v : Nat) : ConnMap :=
  (k, v) :: mapDelete m k

/-- The struct `Client` (its field `catch` is spelled `catchRate`, `catch` being
reserved), together with the memory its maps point into
(`heap`, `nextPtr`) and the traces of the calls it made on its two sockets
(`icmpOut`, `udpOut`). -/
structure Client where
  id : Int
  sequence : Int
  timeout : Int
  sproto : Int
  rproto : Int
  catchRate : Int
  key : Int
  tcpmode : Bool
  ipaddrServer : String
  addrServer : String
  targetAddr : String
  localAddrToConnMap : ConnMap
  localIdToConnMap : ConnMap
  sendPacket : Nat
  recvPacket : Nat
  sendPacketSize : Nat
  recvPacketSize : Nat
  sendCatchPacket : Nat
  recvCatchPacket : Nat
  heap : Nat → ClientConn
  nextPtr : Nat
  icmpOut : List ICMPSend
  udpOut : List LocalWrite

/-- The state `Run` starts its loops in: the value `NewClient` returns, with the
two maps freshly made and nothing allocated or sent yet. `ipaddrServer` is the
text of the address `net.ResolveIPAddr` returned for `server`. -/
def NewClient (id timeout sproto rproto catchRate key : Int) (tcpmode : Bool)
    (server ipaddrServer target : String) : Client :=
  { id := id, sequence := 0, timeout := timeout, sproto := sproto, rproto := rproto,
    catchRate := catchRate, key := key, tcpmode := tcpmode, ipaddrServer := ipaddrServer,
    addrServer := server,
    targetAddr := target, localAddrToConnMap := [], localIdToConnMap := [],
    sendPacket := 0, recvPacket := 0, sendPacketSize := 0, recvPacketSize := 0,
    sendCatchPacket := 0, recvCatchPacket := 0,
    heap := fun _ => { ipaddr := none, tcpaddr := none, id := "", activeTime := 0, close := false },
    nextPtr := 0, icmpOut := [], udpOut := [] }

/-! ## Operations -/

/-- The call `sendICMP(p.id, p.sequence, *p.conn, p.ipaddrServer, p.targetAddr,
connId, msgType, data, p.sproto, p.rproto, p.catch, p.key)`, as a record. -/
def icmpCall (p : Client) (connId : String) (msgType : MsgType) (data : List Nat) : ICMPSend :=
  { echoId := p.id, sequence := p.sequence, server := p.ipaddrServer, target := p.targetAddr,
    connId := connId, msgType := msgType, data := data, sproto := p.sproto,
    rproto := p.rproto, catchRate := p.catchRate, key := p.key }

/-- Lines 299-306 of `Accept`: look the source address up in the endpoint index
and, when it is absent, allocate a record with the id `uuid` that `UniqueId()`
returned and enter it in both indices. Returns the state and the pointer
`clientConn`. -/
def acceptConn (p : Client) (now : Int) (srcaddr uuid : String) : Client × Nat :=
  match mapGet p.localAddrToConnMap srcaddr with
  | some ptr => (p, ptr)
  | none =>
    ({ p with
        heap := Function.update p.heap p.nextPtr
          { ipaddr := some srcaddr, tcpaddr := none, id := uuid, activeTime := now,
            close := false },
        nextPtr := p.nextPtr + 1,
        localAddrToConnMap := mapSet p.localAddrToConnMap srcaddr p.nextPtr,
        localIdToConnMap := mapSet p.localIdToConnMap uuid p.nextPtr },
      p.nextPtr)

/-- The length of the read buffer of `Accept`, `make([]byte, 10240)`. -/
def acceptBufferSize : Nat := 10240

/-- The slice `bytes[:n]` after `ReadFromUDP(bytes)` read a datagram into a buffer
of `size` bytes: the read copies at most `size` bytes of the datagram and drops
the rest. -/
def readFromUDP (size : Nat) (datagram : List Nat) : List Nat :=
  datagram.take size

/-- Lines 285-312 of `Accept`, for an iteration in which `ReadFromUDP` returned
without error: the read of `datagram` sent by `srcaddr`, the look-up or creation
of the record, the update of `activeTime`, the call of `sendICMP` with
`bytes[:n]`, and `p.sequence++`. -/
def AcceptSend (p : Client) (now : Int) (srcaddr uuid : String) (datagram : List Nat) :
    Client :=
  let bytes := readFromUDP acceptBufferSize datagram
  let r := acceptConn p now srcaddr uuid
  let p1 := r.1
  let clientConn := r.2
  let c := p1.heap clientConn
  { p1 with
    heap := Function.update p1.heap clientConn { c with activeTime := now },
    icmpOut := p1.icmpOut ++ [icmpCall p1 c.id MsgType.DATA bytes],
    sequence := wrapInt64 (p1.sequence + 1) }

/-- Lines 314-315 of `Accept`: `p.sendPacket++` and
`p.sendPacketSize += (uint64)(n)`, where `n` is the length the read returned. -/
def AcceptCount (p : Client) (n : Nat) : Client :=
  { p with
    sendPacket := wrapUint64 (p.sendPacket + 1),
    sendPacketSize := wrapUint64 (p.sendPacketSize + n) }

/-- One whole iteration of the loop of `Accept` in which `ReadFromUDP` returned
without error, run without anything else in between. -/
def Accept (p : Client) (now : Int) (srcaddr uuid : String) (datagram : List Nat) : Client :=
  AcceptCount (AcceptSend p now srcaddr uuid datagram)
    (readFromUDP acceptBufferSize datagram).length

/-- Lines 226-238 of `AcceptTcpConn`: the handler of an accepted TCP connection
allocates its record and enters it in both indices, the endpoint index under
`tcpsrcaddr.String()`. -/
def AcceptTcpConn (p : Client) (now : Int) (uuid tcpsrcaddr : String) : Client :=
  { p with
    heap := Function.update p.heap p.nextPtr
      { ipaddr := none, tcpaddr := some tcpsrcaddr, id := uuid, activeTime := now,
        close := false },
    nextPtr := p.nextPtr + 1,
    localAddrToConnMap := mapSet p.localAddrToConnMap tcpsrcaddr p.nextPtr,
    localIdToConnMap := mapSet p.localIdToConnMap uuid p.nextPtr }

/-- Lines 349-366 of `processPacket`: the data path once the record
`clientConn` was found. `now` is the reading of `time.Now()` and `writeErr`
tells whether `WriteToUDP` returned an error. -/
def deliver (p : Client) (packet : Packet) (now : Int) (writeErr : Bool) (clientConn : Nat) :
    Client :=
  let c := p.heap clientConn
  let addr := c.ipaddr
  let heap1 := Function.update p.heap clientConn { c with activeTime := now }
  let recvCatch :=
    if packet.msgType = MsgType.CATCH then wrapUint64 (p.recvCatchPacket + 1)
    else p.recvCatchPacket
  let out := p.udpOut ++ [{ data := packet.data, addr := addr }]
  if writeErr then
    { p with
      heap := Function.update heap1 clientConn { heap1 clientConn with close := true },
      recvCatchPacket := recvCatch,
      udpOut := out }
  else
    { p with
      heap := heap1,
      recvCatchPacket := recvCatch,
      udpOut := out,
      recvPacket := wrapUint64 (p.recvPacket + 1),
      recvPacketSize := wrapUint64 (p.recvPacketSize + packet.data.length) }

/-- The method `processPacket`. -/
def processPacket (p : Client) (packet : Packet) (now : Int) (writeErr : Bool) : Client :=
  if packet.rproto ≥ 0 then p
  else if packet.key ≠ p.key then p
  else if packet.echoId ≠ p.id then p
  else if packet.msgType = MsgType.PING then p
  else
    match mapGet p.localIdToConnMap packet.id with
    | none => p
    | some clientConn => deliver p packet now writeErr clientConn

/-- The method `Close`; it reads the fields `id` and `ipaddr` of its argument. -/
def Close (p : Client) (clientConn : ClientConn) : Client :=
  if mapGet p.localIdToConnMap clientConn.id ≠ none then
    { p with
      localIdToConnMap := mapDelete p.localIdToConnMap clientConn.id,
      localAddrToConnMap := mapDelete p.localAddrToConnMap (addrString clientConn.ipaddr) }
  else p

/-- The test of the first loop of `checkTimeoutConn`:
`now.Sub(conn.activeTime) > time.Second * time.Duration(p.timeout)`. -/
def expired (now timeout : Int) (c : ClientConn) : Bool :=
  decide (timeSub now c.activeTime > wrapInt64 (Second * timeout))

/-- Body of the first loop of `checkTimeoutConn` for one map entry. -/
def markStep (now timeout : Int) (heap : Nat → ClientConn) (e : String × Nat) :
    Nat → ClientConn :=
  if expired now timeout (heap e.2) then
    Function.update heap e.2 { heap e.2 with close := true }
  else heap

/-- The first loop of `checkTimeoutConn` over the entries of the id index. -/
def markExpired (now timeout : Int) (entries : ConnMap) (heap : Nat → ClientConn) :
    Nat → ClientConn :=
  entries.foldl (markStep now timeout) heap

/-- Body of the second loop of `checkTimeoutConn` for one entry of the id index
as it was when the loop started. A `range` loop does not produce an entry that
was deleted before it was reached, hence the test that the entry is still
there. -/
def sweepStep (p : Client) (e : String × Nat) : Client :=
  if mapGet p.localIdToConnMap e.1 = some e.2 then
    if (p.heap e.2).close then Close p (p.heap e.2) else p
  else p

/-- The method `checkTimeoutConn`; `now` is the reading of `time.Now()`. -/
def checkTimeoutConn (p : Client) (now : Int) : Client :=
  let p1 := { p with heap := markExpired now p.timeout p.localIdToConnMap p.heap }
  p1.localIdToConnMap.foldl sweepStep p1

/-- The method `ping`; `b` is the result of `now.MarshalBinary()`. -/
def ping (p : Client) (b : List Nat) : Client :=
  if p.sendPacket = 0 then
    { p with
      icmpOut := p.icmpOut ++ [icmpCall p "" MsgType.PING b],
      sequence := wrapInt64 (p.sequence + 1) }
  else p

/-- The method `showNet`. -/
def showNet (p : Client) : Client :=
  { p with
    sendPacket := 0, recvPacket := 0, sendPacketSize := 0, recvPacketSize := 0,
    sendCatchPacket := 0, recvCatchPacket := 0 }

/-- Body of the loop of `sendCatch` for one entry of the id index. -/
def catchStep (p : Client) (e : String × Nat) : Client :=
  { p with
    icmpOut := p.icmpOut ++ [icmpCall p (p.heap e.2).id MsgType.CATCH []],
    sequence := wrapInt64 (p.sequence + 1),
    sendCatchPacket := wrapUint64 (p.sendCatchPacket + 1) }

/-- The method `sendCatch`. -/
def sendCatch (p : Client) : Client :=
  if p.catchRate > 0 then p.localIdToConnMap.foldl catchStep p else p

/-- The value of `inter` in `Run` (milliseconds); Go's `/` on `int` truncates. -/
def catchInter (catchRate : Int) : Int :=
  if catchRate > 0 then
    (if Int.tdiv 1000 catchRate ≤ 0 then 1 else Int.tdiv 1000 catchRate)
  else 1000

/-- The period handed to `time.NewTicker` for the catch ticker in `Run`:
`time.Millisecond * time.Duration(inter)`, in nanoseconds. -/
def catchPeriod (catchRate : Int) : Int :=
  wrapInt64 (Millisecond * catchInter catchRate)

/-- The branch of the `select` in `Run` for the one-second ticker. -/
def secondTick (p : Client) (now : Int) (b : List Nat) : Client :=
  showNet (ping (checkTimeoutConn p now) b)

/-! ## Runs of the UDP-mode client -/

/-- The events of the UDP-mode client taken as whole steps: a datagram handled
by one iteration of the acceptor, an inbound packet dequeued by the central
loop, a tick of the one-second ticker, a tick of the catch ticker; `reap` is
`checkTimeoutConn` on its own. -/
inductive Event where
  | accept (now : Int) (srcaddr uuid : String) (datagram : List Nat)
  | packet (pkt : Packet) (now : Int) (writeErr : Bool)
  | reap (now : Int)
  | tick (now : Int) (b : List Nat)
  | catchTick
deriving DecidableEq, Repr

/-- The effect of one event. -/
def step (p : Client) : Event → Client
  | Event.accept now srcaddr uuid datagram => Accept p now srcaddr uuid datagram
  | Event.packet pkt now writeErr => processPacket p pkt now writeErr
  | Event.reap now => checkTimeoutConn p now
  | Event.tick now b => secondTick p now b
  | Event.catchTick => sendCatch p

/-- The effect of a sequence of events, oldest first. -/
def run (p : Client) (evs : List Event) : Client :=
  evs.foldl step p

/-- The assumption on `UniqueId()`: when the acceptor mints an id (the source
address is not registered), the id is not a key of the id index. -/
def uniqueIdFresh (p : Client) : Event → Bool
  | Event.accept _ srcaddr uuid _ =>
    (mapGet p.localAddrToConnMap srcaddr).isSome || (mapGet p.localIdToConnMap uuid).isNone
  | _ => true

/-- Every id minted along the run was fresh when it was minted. -/
def freshRun : Client → List Event → Bool
  | _, [] => true
  | p, e :: es => uniqueIdFresh p e && freshRun (step p e) es

/-- The registry invariant of the UDP-mode client: keys are unique in both
indices, every entry of the id index points to a record that carries that id and
is entered in the endpoint index under its own address, and every entry of the
endpoint index points to a record that carries that address and is entered in
the id index under its own id. -/
structure RegistryInv (p : Client) : Prop where
  idKeys : (p.localIdToConnMap.map Prod.fst).Nodup
  addrKeys : (p.localAddrToConnMap.map Prod.fst).Nodup
  idToAddr : ∀ k ptr, mapGet p.localIdToConnMap k = some ptr →
    (p.heap ptr).id = k ∧ ∃ a, (p.heap ptr).ipaddr = some a ∧
      mapGet p.localAddrToConnMap a = some ptr
  addrToId : ∀ a ptr, mapGet p.localAddrToConnMap a = some ptr →
    (p.heap ptr).ipaddr = some a ∧ mapGet p.localIdToConnMap (p.heap ptr).id = some ptr

/-- Every pointer held by the registry was handed out by the allocator. -/
def PtrBound (p : Client) : Prop :=
  (∀ k ptr, mapGet p.localIdToConnMap k = some ptr → ptr < p.nextPtr) ∧
  (∀ a ptr, mapGet p.localAddrToConnMap a = some ptr → ptr < p.nextPtr)

/-- An entry of the id index the second loop of `checkTimeoutConn` has nothing
left to do for: if it is still there and its record is marked closing, the
record's id is no longer a key of the id index. -/
def Settled (p : Client) (e : String × Nat) : Prop :=
  mapGet p.localIdToConnMap e.1 = some e.2 → (p.heap e.2).close = true →
    mapGet p.localIdToConnMap (p.heap e.2).id = none

/-- A sample configuration: instance id 7, timeout 5 s, catch rate 10, key 9,
UDP mode. -/
def demoClient : Client := NewClient 7 5 1 2 10 9 false "server" "10.0.0.9" "target"

/-- A sample reply packet for the connection id `id-1`, addressed to `demoClient`. -/
def demoReply : Packet :=
  { msgType := MsgType.DATA, data := [9, 8], id := "id-1", rproto := -1, key := 9, echoId := 7,
    src := "10.0.0.1" }

/-- A sample run: two endpoints send a datagram each, a reply arrives for the
first, the catch ticker fires, and a second passes. -/
def demoEvents : List Event :=
  [Event.accept 0 "127.0.0.1:40000" "id-1" [1, 2, 3],
   Event.accept 1000 "127.0.0.1:40001" "id-2" [4],
   Event.packet demoReply 2000 false,
   Event.catchTick,
   Event.tick 1000000000 [0]]

/-! ## Association lists -/

theorem mapGet_mapDelete (m : ConnMap) (k k' : String) :
    mapGet (mapDelete m k) k' = if k' = k then none else mapGet m k' := by
  induction m with
  | nil => simp [mapDelete, mapGet]
  | cons e m ih =>
    have hc : mapDelete (e :: m) k = if e.1 = k then mapDelete m k else e :: mapDelete m k := by
      by_cases h : e.1 = k <;> simp [mapDelete, List.filter_cons, h]
    rw [hc]
    by_cases h : e.1 = k
    · rw [if_pos h, ih]
      by_cases h2 : k' = k
      · simp [h2]
      · have h3 : ¬ e.1 = k' := fun h3 => h2 (h3 ▸ h)
        simp [h2, mapGet, h3]
    · rw [if_neg h]
      simp only [mapGet]
      rw [ih]
      by_cases h2 : k' = k
      · have h3 : ¬ e.1 = k' := fun h3 => h (h3.trans h2)
        simp [h2, h3, h]
      · simp [h2]

theorem mapGet_mapSet (m : ConnMap) (k k' : String) (v : Nat) :
    mapGet (mapSet m k v) k' = if k' = k then some v else mapGet m k' := by
  unfold mapSet
  simp only [mapGet]
  by_cases h : k' = k
  · simp [h]
  · simp [h, Ne.symm h, mapGet_mapDelete]

theorem mem_of_mapGet {m : ConnMap} {k : String} {v : Nat} (h : mapGet m k = some v) :
    (k, v) ∈ m := by
  induction m with
  | nil => simp [mapGet] at h
  | cons e m ih =>
    simp only [mapGet] at h
    by_cases h1 : e.1 = k
    · simp only [h1, if_true, Option.some.injEq] at h
      have : e = (k, v) := Prod.ext h1 h
      simp [this]
    · simp only [h1, if_false] at h
      exact List.mem_cons_of_mem _ (ih h)

theorem mapGet_eq_none_iff (m : ConnMap) (k : String) :
    mapGet m k = none ↔ k ∉ m.map Prod.fst := by
  induction m with
  | nil => simp [mapGet]
  | cons e m ih =>
    simp only [mapGet, List.map_cons, List.mem_cons, not_or]
    by_cases h1 : e.1 = k
    · simp [h1]
    · simp [h1, ih, Ne.symm h1]

theorem mapGet_of_mem {m : ConnMap} (hn : (m.map Prod.fst).Nodup) {e : String × Nat}
    (he : e ∈ m) : mapGet m e.1 = some e.2 := by
  induction m with
  | nil => simp at he
  | cons x m ih =>
    simp only [List.map_cons, List.nodup_cons] at hn
    simp only [mapGet]
    rcases List.mem_cons.1 he with h | h
    · simp [h]
    · have hx : x.1 ≠ e.1 := by
        intro hx
        exact hn.1 (hx ▸ List.mem_map_of_mem Prod.fst h)
      simp [hx, ih hn.2 h]

theorem mem_mapDelete {m : ConnMap} {k : String} {e : String × Nat}
    (h : e ∈ mapDelete m k) : e ∈ m :=
  (List.mem_filter.1 h).1

theorem nodup_mapDelete {m : ConnMap} (k : String) (hn : (m.map Prod.fst).Nodup) :
    ((mapDelete m k).map Prod.fst).Nodup :=
  hn.sublist ((List.filter_sublist m).map Prod.fst)

theorem nodup_mapSet {m : ConnMap} (k : String) (v : Nat) (hn : (m.map Prod.fst).Nodup) :
    ((mapSet m k v).map Prod.fst).Nodup := by
  unfold mapSet
  simp only [List.map_cons, List.nodup_cons]
  refine ⟨?_, nodup_mapDelete k hn⟩
  rw [← mapGet_eq_none_iff, mapGet_mapDelete]
  simp

/-! ## The first loop of the reaper -/

theorem close_true_eq_self (c : ClientConn) (h : c.close = true) :
    { c with close := true } = c := by
  cases c
  simp_all

theorem markStep_apply (now timeout : Int) (heap : Nat → ClientConn) (e : String × Nat)
    (i : Nat) :
    markStep now timeout heap e i =
      if e.2 = i ∧ expired now timeout (heap i) = true then { heap i with close := true }
      else heap i := by
  unfold markStep
  by_cases hi : e.2 = i
  · subst hi
    by_cases hx : expired now timeout (heap e.2) = true
    · simp [hx]
    · simp [hx]
  · by_cases hx : expired now timeout (heap e.2) = true
    · simp [hx, hi, Function.update_noteq (Ne.symm hi)]
    · simp [hx, hi]

theorem markExpired_apply (now timeout : Int) (entries : ConnMap) (heap : Nat → ClientConn)
    (i : Nat) :
    markExpired now timeout entries heap i =
      if i ∈ entries.map Prod.snd ∧ expired now timeout (heap i) = true then
        { heap i with close := true }
      else heap i := by
  induction entries generalizing heap with
  | nil => simp [markExpired]
  | cons e es ih =>
    have hstep : markExpired now timeout (e :: es) heap
        = markExpired now timeout es (markStep now timeout heap e) := rfl
    have hm := markStep_apply now timeout heap e i
    have hih := ih (markStep now timeout heap e)
    rw [hstep]
    by_cases hx : expired now timeout (heap i) = true
    · have hx' : expired now timeout { heap i with close := true } = true := hx
      by_cases h1 : e.2 = i
      · rw [if_pos ⟨h1, hx⟩] at hm
        have hmem : i ∈ (e :: es).map Prod.snd := by simp [h1]
        rw [hm] at hih
        by_cases h2 : i ∈ es.map Prod.snd
        · rw [if_pos ⟨h2, hx'⟩] at hih
          rw [hih]
          exact (if_pos ⟨hmem, hx⟩).symm
        · rw [if_neg (fun h => h2 h.1)] at hih
          rw [hih]
          exact (if_pos ⟨hmem, hx⟩).symm
      · rw [if_neg (fun h => h1 h.1)] at hm
        rw [hm] at hih
        by_cases h2 : i ∈ es.map Prod.snd
        · have hmem : i ∈ (e :: es).map Prod.snd := by simp [h2]
          rw [if_pos ⟨h2, hx⟩] at hih
          rw [hih]
          exact (if_pos ⟨hmem, hx⟩).symm
        · have hmem : ¬ i ∈ (e :: es).map Prod.snd := by
            simp only [List.map_cons, List.mem_cons, not_or]
            exact ⟨fun h => h1 h.symm, h2⟩
          rw [if_neg (fun h => h2 h.1)] at hih
          rw [hih]
          exact (if_neg (fun h => hmem h.1)).symm
    · rw [if_neg (fun h => hx h.2)] at hm
      rw [hm, if_neg (fun h => hx h.2)] at hih
      rw [hih]
      exact (if_neg (fun h => hx h.2)).symm

theorem markExpired_id (now timeout : Int) (entries : ConnMap) (heap : Nat → ClientConn)
    (i : Nat) : (markExpired now timeout entries heap i).id = (heap i).id := by
  rw [markExpired_apply]
  split <;> rfl

theorem markExpired_ipaddr (now timeout : Int) (entries : ConnMap) (heap : Nat → ClientConn)
    (i : Nat) : (markExpired now timeout entries heap i).ipaddr = (heap i).ipaddr := by
  rw [markExpired_apply]
  split <;> rfl

theorem markExpired_expired (now timeout : Int) (entries : ConnMap) (heap : Nat → ClientConn)
    (i : Nat) :
    expired now timeout (markExpired now timeout entries heap i) = expired now timeout (heap i) := by
  rw [markExpired_apply]
  split <;> rfl

theorem markExpired_close_of_expired (now timeout : Int) (entries : ConnMap)
    (heap : Nat → ClientConn) (i : Nat) (hi : i ∈ entries.map Prod.snd)
    (hx : expired now timeout (heap i) = true) :
    (markExpired now timeout entries heap i).close = true := by
  rw [markExpired_apply]
  simp [hi, hx]

theorem markExpired_of_not_expired (now timeout : Int) (entries : ConnMap)
    (heap : Nat → ClientConn) (i : Nat) (hx : expired now timeout (heap i) = false) :
    markExpired now timeout entries heap i = heap i := by
  rw [markExpired_apply]
  simp [hx]

theorem markExpired_eq_self (now timeout : Int) (entries : ConnMap) (heap : Nat → ClientConn)
    (h : ∀ e ∈ entries, expired now timeout (heap e.2) = true → (heap e.2).close = true) :
    markExpired now timeout entries heap = heap := by
  funext i
  rw [markExpired_apply]
  split
  · rename_i hc
    obtain ⟨e, he, rfl⟩ := List.mem_map.1 hc.1
    exact close_true_eq_self _ (h e he hc.2)
  · rfl

/-! ## The second loop of the reaper -/

theorem sweepStep_heap (p : Client) (e : String × Nat) : (sweepStep p e).heap = p.heap := by
  unfold sweepStep Close
  split_ifs <;> rfl

theorem sweepStep_timeout (p : Client) (e : String × Nat) :
    (sweepStep p e).timeout = p.timeout := by
  unfold sweepStep Close
  split_ifs <;> rfl

theorem sweepStep_idGet (p : Client) (e : String × Nat) (k : String) :
    mapGet (sweepStep p e).localIdToConnMap k = none ∨
      mapGet (sweepStep p e).localIdToConnMap k = mapGet p.localIdToConnMap k := by
  unfold sweepStep Close
  split_ifs
  · simp only [mapGet_mapDelete]
    split_ifs
    · exact Or.inl rfl
    · exact Or.inr rfl
  all_goals exact Or.inr rfl

theorem sweepStep_addrGet (p : Client) (e : String × Nat) (k : String) :
    mapGet (sweepStep p e).localAddrToConnMap k = none ∨
      mapGet (sweepStep p e).localAddrToConnMap k = mapGet p.localAddrToConnMap k := by
  unfold sweepStep Close
  split_ifs
  · simp only [mapGet_mapDelete]
    split_ifs
    · exact Or.inl rfl
    · exact Or.inr rfl
  all_goals exact Or.inr rfl

theorem sweepStep_idMem (p : Client) (e x : String × Nat)
    (hx : x ∈ (sweepStep p e).localIdToConnMap) : x ∈ p.localIdToConnMap := by
  unfold sweepStep Close at hx
  split_ifs at hx
  · exact mem_mapDelete hx
  all_goals exact hx

theorem sweepStep_idGet_none (p : Client) (e : String × Nat) (k : String)
    (h : mapGet p.localIdToConnMap k = none) :
    mapGet (sweepStep p e).localIdToConnMap k = none := by
  rcases sweepStep_idGet p e k with h1 | h1
  · exact h1
  · rw [h1, h]

theorem sweepStep_idGet_some (p : Client) (e : String × Nat) (k : String) (v : Nat)
    (h : mapGet (sweepStep p e).localIdToConnMap k = some v) :
    mapGet p.localIdToConnMap k = some v := by
  rcases sweepStep_idGet p e k with h1 | h1
  · rw [h1] at h
    cases h
  · rw [← h1, h]

theorem sweepStep_settled (p : Client) (e : String × Nat) : Settled (sweepStep p e) e := by
  intro h1 h2
  rw [sweepStep_heap] at h2 ⊢
  have h1' := sweepStep_idGet_some p e _ _ h1
  by_cases hq : mapGet p.localIdToConnMap (p.heap e.2).id = none
  · exact sweepStep_idGet_none p e _ hq
  · unfold sweepStep Close
    simp [h1', h2, hq, mapGet_mapDelete]

theorem sweepStep_keeps_settled (p : Client) (e x : String × Nat) (hx : Settled p x) :
    Settled (sweepStep p e) x := by
  intro h1 h2
  rw [sweepStep_heap] at h2 ⊢
  exact sweepStep_idGet_none p e _ (hx (sweepStep_idGet_some p e _ _ h1) h2)

theorem sweepStep_eq_self (p : Client) (e : String × Nat) (h : Settled p e) :
    sweepStep p e = p := by
  unfold sweepStep
  split_ifs with h1 h2
  · unfold Close
    simp [h h1 h2]
  all_goals rfl

theorem sweep_heap (es : ConnMap) (p : Client) : (es.foldl sweepStep p).heap = p.heap := by
  induction es generalizing p with
  | nil => rfl
  | cons e es ih => rw [List.foldl_cons, ih, sweepStep_heap]

theorem sweep_timeout (es : ConnMap) (p : Client) :
    (es.foldl sweepStep p).timeout = p.timeout := by
  induction es generalizing p with
  | nil => rfl
  | cons e es ih => rw [List.foldl_cons, ih, sweepStep_timeout]

theorem sweep_idMem (es : ConnMap) (p : Client) (x : String × Nat)
    (hx : x ∈ (es.foldl sweepStep p).localIdToConnMap) : x ∈ p.localIdToConnMap := by
  induction es generalizing p with
  | nil => exact hx
  | cons e es ih => exact sweepStep_idMem p e x (ih _ hx)

theorem sweep_idGet_some (es : ConnMap) (p : Client) (k : String) (v : Nat)
    (h : mapGet (es.foldl sweepStep p).localIdToConnMap k = some v) :
    mapGet p.localIdToConnMap k = some v := by
  induction es generalizing p with
  | nil => exact h
  | cons e es ih => exact sweepStep_idGet_some p e k v (ih _ h)

theorem sweep_addrGet_some (es : ConnMap) (p : Client) (k : String) (v : Nat)
    (h : mapGet (es.foldl sweepStep p).localAddrToConnMap k = some v) :
    mapGet p.localAddrToConnMap k = some v := by
  induction es generalizing p with
  | nil => exact h
  | cons e es ih =>
    have h1 := ih _ h
    rcases sweepStep_addrGet p e k with h2 | h2
    · rw [h2] at h1
      cases h1
    · rw [← h2, h1]

theorem sweep_keeps_settled (es : ConnMap) (p : Client) (x : String × Nat)
    (hx : Settled p x) : Settled (es.foldl sweepStep p) x := by
  induction es generalizing p with
  | nil => exact hx
  | cons e es ih => exact ih _ (sweepStep_keeps_settled p e x hx)

theorem sweep_settled (es : ConnMap) (p : Client) (x : String × Nat) (hx : x ∈ es) :
    Settled (es.foldl sweepStep p) x := by
  induction es generalizing p with
  | nil => simp at hx
  | cons e es ih =>
    rw [List.foldl_cons]
    rcases List.mem_cons.1 hx with h | h
    · subst h
      exact sweep_keeps_settled es _ _ (sweepStep_settled p x)
    · exact ih _ h

theorem sweep_eq_self (es : ConnMap) (p : Client) (h : ∀ e ∈ es, Settled p e) :
    es.foldl sweepStep p = p := by
  induction es with
  | nil => rfl
  | cons e es ih =>
    rw [List.foldl_cons, sweepStep_eq_self p e (h e (List.mem_cons_self _ _))]
    exact ih (fun x hx => h x (List.mem_cons_of_mem _ hx))

/-! ## Preservation of the registry invariant -/

theorem RegistryInv_of_same {p q : Client} (h : RegistryInv p)
    (hid : q.localIdToConnMap = p.localIdToConnMap)
    (haddr : q.localAddrToConnMap = p.localAddrToConnMap)
    (hh : ∀ i, (q.heap i).id = (p.heap i).id ∧ (q.heap i).ipaddr = (p.heap i).ipaddr) :
    RegistryInv q := by
  refine ⟨?_, ?_, ?_, ?_⟩
  · rw [hid]
    exact h.idKeys
  · rw [haddr]
    exact h.addrKeys
  · intro k ptr hk
    rw [hid] at hk
    rw [haddr, (hh ptr).1, (hh ptr).2]
    exact h.idToAddr k ptr hk
  · intro a ptr ha
    rw [haddr] at ha
    rw [hid, (hh ptr).1, (hh ptr).2]
    exact h.addrToId a ptr ha

theorem PtrBound_of_same {p q : Client} (h : PtrBound p)
    (hid : q.localIdToConnMap = p.localIdToConnMap)
    (haddr : q.localAddrToConnMap = p.localAddrToConnMap)
    (hn : q.nextPtr = p.nextPtr) : PtrBound q := by
  unfold PtrBound
  rw [hid, haddr, hn]
  exact h

theorem update_field_same (heap : Nat → ClientConn) (ptr : Nat) (c : ClientConn)
    (hid : c.id = (heap ptr).id) (hip : c.ipaddr = (heap ptr).ipaddr) (i : Nat) :
    (Function.update heap ptr c i).id = (heap i).id ∧
      (Function.update heap ptr c i).ipaddr = (heap i).ipaddr := by
  by_cases h : i = ptr
  · subst h
    simp [hid, hip]
  · simp [Function.update_noteq h]

theorem acceptConn_inv (p : Client) (now : Int) (srcaddr uuid : String)
    (hr : RegistryInv p) (hb : PtrBound p)
    (hf : mapGet p.localAddrToConnMap srcaddr = none → mapGet p.localIdToConnMap uuid = none) :
    RegistryInv (acceptConn p now srcaddr uuid).1 ∧ PtrBound (acceptConn p now srcaddr uuid).1 := by
  unfold acceptConn
  cases hget : mapGet p.localAddrToConnMap srcaddr with
  | some ptr => exact ⟨hr, hb⟩
  | none =>
    have hfu := hf hget
    refine ⟨⟨?_, ?_, ?_, ?_⟩, ?_, ?_⟩
    · exact nodup_mapSet _ _ hr.idKeys
    · exact nodup_mapSet _ _ hr.addrKeys
    · intro k ptr hk
      simp only [mapGet_mapSet] at hk ⊢
      by_cases hku : k = uuid
      · rw [if_pos hku] at hk
        cases hk
        simp [hku]
      · rw [if_neg hku] at hk
        have hlt := hb.1 k ptr hk
        have hne : ptr ≠ p.nextPtr := Nat.ne_of_lt hlt
        obtain ⟨h1, a, h2, h3⟩ := hr.idToAddr k ptr hk
        have ha : a ≠ srcaddr := by
          intro ha
          rw [ha, hget] at h3
          cases h3
        simp only [Function.update_noteq hne]
        exact ⟨h1, a, h2, by rw [if_neg ha]; exact h3⟩
    · intro a ptr ha
      simp only [mapGet_mapSet] at ha ⊢
      by_cases has : a = srcaddr
      · rw [if_pos has] at ha
        cases ha
        simp [has]
      · rw [if_neg has] at ha
        have hlt := hb.2 a ptr ha
        have hne : ptr ≠ p.nextPtr := Nat.ne_of_lt hlt
        obtain ⟨h1, h2⟩ := hr.addrToId a ptr ha
        have hk : (p.heap ptr).id ≠ uuid := by
          intro hk
          rw [hk, hfu] at h2
          cases h2
        simp only [Function.update_noteq hne]
        exact ⟨h1, by rw [if_neg hk]; exact h2⟩
    · intro k ptr hk
      simp only [mapGet_mapSet] at hk
      by_cases hku : k = uuid
      · rw [if_pos hku] at hk
        cases hk
        exact Nat.lt_succ_self _
      · rw [if_neg hku] at hk
        exact Nat.lt_succ_of_lt (hb.1 k ptr hk)
    · intro a ptr ha
      simp only [mapGet_mapSet] at ha
      by_cases has : a = srcaddr
      · rw [if_pos has] at ha
        cases ha
        exact Nat.lt_succ_self _
      · rw [if_neg has] at ha
        exact Nat.lt_succ_of_lt (hb.2 a ptr ha)

theorem Accept_inv (p : Client) (now : Int) (srcaddr uuid : String) (bytes : List Nat)
    (hr : RegistryInv p) (hb : PtrBound p)
    (hf : mapGet p.localAddrToConnMap srcaddr = none → mapGet p.localIdToConnMap uuid = none) :
    RegistryInv (Accept p now srcaddr uuid bytes) ∧ PtrBound (Accept p now srcaddr uuid bytes) := by
  obtain ⟨h1, h2⟩ := acceptConn_inv p now srcaddr uuid hr hb hf
  refine ⟨RegistryInv_of_same h1 rfl rfl ?_, PtrBound_of_same h2 rfl rfl rfl⟩
  intro i
  exact update_field_same (acceptConn p now srcaddr uuid).1.heap (acceptConn p now srcaddr uuid).2
    { (acceptConn p now srcaddr uuid).1.heap (acceptConn p now srcaddr uuid).2 with
      activeTime := now } rfl rfl i

theorem processPacket_cases (p : Client) (packet : Packet) (now : Int) (writeErr : Bool) :
    processPacket p packet now writeErr = p ∨
      ∃ ptr, mapGet p.localIdToConnMap packet.id = some ptr ∧
        processPacket p packet now writeErr = deliver p packet now writeErr ptr := by
  unfold processPacket
  by_cases h1 : packet.rproto ≥ 0
  · rw [if_pos h1]
    exact Or.inl rfl
  rw [if_neg h1]
  by_cases h2 : packet.key ≠ p.key
  · rw [if_pos h2]
    exact Or.inl rfl
  rw [if_neg h2]
  by_cases h3 : packet.echoId ≠ p.id
  · rw [if_pos h3]
    exact Or.inl rfl
  rw [if_neg h3]
  by_cases h4 : packet.msgType = MsgType.PING
  · rw [if_pos h4]
    exact Or.inl rfl
  rw [if_neg h4]
  cases h : mapGet p.localIdToConnMap packet.id with
  | none => exact Or.inl rfl
  | some ptr => exact Or.inr ⟨ptr, rfl, rfl⟩

theorem deliver_maps (p : Client) (packet : Packet) (now : Int) (writeErr : Bool) (ptr : Nat) :
    (deliver p packet now writeErr ptr).localIdToConnMap = p.localIdToConnMap ∧
    (deliver p packet now writeErr ptr).localAddrToConnMap = p.localAddrToConnMap ∧
    (deliver p packet now writeErr ptr).nextPtr = p.nextPtr ∧
    (deliver p packet now writeErr ptr).sendPacket = p.sendPacket ∧
    (deliver p packet now writeErr ptr).icmpOut = p.icmpOut := by
  unfold deliver
  cases writeErr <;> exact ⟨rfl, rfl, rfl, rfl, rfl⟩

theorem deliver_heap_eq (p : Client) (packet : Packet) (now : Int) (writeErr : Bool)
    (ptr : Nat) :
    (deliver p packet now writeErr ptr).heap =
      Function.update p.heap ptr
        { p.heap ptr with activeTime := now, close := (p.heap ptr).close || writeErr } := by
  unfold deliver
  cases writeErr
  · simp
  · simp

theorem deliver_heap (p : Client) (packet : Packet) (now : Int) (writeErr : Bool) (ptr : Nat)
    (i : Nat) :
    ((deliver p packet now writeErr ptr).heap i).id = (p.heap i).id ∧
    ((deliver p packet now writeErr ptr).heap i).ipaddr = (p.heap i).ipaddr := by
  rw [deliver_heap_eq]
  exact update_field_same p.heap ptr
    { p.heap ptr with activeTime := now, close := (p.heap ptr).close || writeErr } rfl rfl i

theorem processPacket_maps (p : Client) (packet : Packet) (now : Int) (writeErr : Bool) :
    (processPacket p packet now writeErr).localIdToConnMap = p.localIdToConnMap ∧
    (processPacket p packet now writeErr).localAddrToConnMap = p.localAddrToConnMap ∧
    (processPacket p packet now writeErr).nextPtr = p.nextPtr ∧
    (processPacket p packet now writeErr).sendPacket = p.sendPacket ∧
    (processPacket p packet now writeErr).icmpOut = p.icmpOut := by
  rcases processPacket_cases p packet now writeErr with h | ⟨ptr, _, h⟩
  · rw [h]
    exact ⟨rfl, rfl, rfl, rfl, rfl⟩
  · rw [h]
    exact deliver_maps p packet now writeErr ptr

theorem processPacket_heap (p : Client) (packet : Packet) (now : Int) (writeErr : Bool)
    (i : Nat) :
    ((processPacket p packet now writeErr).heap i).id = (p.heap i).id ∧
    ((processPacket p packet now writeErr).heap i).ipaddr = (p.heap i).ipaddr := by
  rcases processPacket_cases p packet now writeErr with h | ⟨ptr, _, h⟩
  · rw [h]
    exact ⟨rfl, rfl⟩
  · rw [h]
    exact deliver_heap p packet now writeErr ptr i

theorem processPacket_inv (p : Client) (packet : Packet) (now : Int) (writeErr : Bool)
    (hr : RegistryInv p) (hb : PtrBound p) :
    RegistryInv (processPacket p packet now writeErr) ∧
      PtrBound (processPacket p packet now writeErr) := by
  obtain ⟨h1, h2, h3, _, _⟩ := processPacket_maps p packet now writeErr
  exact ⟨RegistryInv_of_same hr h1 h2 (processPacket_heap p packet now writeErr),
    PtrBound_of_same hb h1 h2 h3⟩

theorem sweepStep_nextPtr (p : Client) (e : String × Nat) :
    (sweepStep p e).nextPtr = p.nextPtr := by
  unfold sweepStep Close
  split_ifs <;> rfl

theorem sweepStep_inv (p : Client) (e : String × Nat) (hr : RegistryInv p) :
    RegistryInv (sweepStep p e) := by
  unfold sweepStep
  split_ifs with h1 h2
  · obtain ⟨hid, a, hip, haddr⟩ := hr.idToAddr e.1 e.2 h1
    unfold Close
    rw [hid, if_pos (by rw [h1]; simp), hip]
    simp only [addrString]
    refine ⟨nodup_mapDelete _ hr.idKeys, nodup_mapDelete _ hr.addrKeys, ?_, ?_⟩
    · intro k ptr hk
      simp only [mapGet_mapDelete] at hk ⊢
      by_cases hke : k = e.1
      · rw [if_pos hke] at hk
        cases hk
      · rw [if_neg hke] at hk
        obtain ⟨g1, b, g2, g3⟩ := hr.idToAddr k ptr hk
        refine ⟨g1, b, g2, ?_⟩
        have hba : b ≠ a := by
          intro hba
          rw [hba, haddr] at g3
          cases g3
          exact hke (g1.symm.trans hid)
        rw [if_neg hba]
        exact g3
    · intro b ptr hb
      simp only [mapGet_mapDelete] at hb ⊢
      by_cases hba : b = a
      · rw [if_pos hba] at hb
        cases hb
      · rw [if_neg hba] at hb
        obtain ⟨g1, g2⟩ := hr.addrToId b ptr hb
        refine ⟨g1, ?_⟩
        have hke : (p.heap ptr).id ≠ e.1 := by
          intro hke
          rw [hke, h1] at g2
          cases g2
          rw [hip] at g1
          cases g1
          exact hba rfl
        rw [if_neg hke]
        exact g2
  · exact hr
  · exact hr

theorem sweep_inv (es : ConnMap) (p : Client) (hr : RegistryInv p) :
    RegistryInv (es.foldl sweepStep p) := by
  induction es generalizing p with
  | nil => exact hr
  | cons e es ih => exact ih _ (sweepStep_inv p e hr)

theorem sweep_nextPtr (es : ConnMap) (p : Client) :
    (es.foldl sweepStep p).nextPtr = p.nextPtr := by
  induction es generalizing p with
  | nil => rfl
  | cons e es ih => rw [List.foldl_cons, ih, sweepStep_nextPtr]

theorem markExpired_inv (p : Client) (now : Int) (hr : RegistryInv p) :
    RegistryInv { p with heap := markExpired now p.timeout p.localIdToConnMap p.heap } :=
  RegistryInv_of_same hr rfl rfl
    (fun i => ⟨markExpired_id _ _ _ _ i, markExpired_ipaddr _ _ _ _ i⟩)

theorem checkTimeoutConn_inv (p : Client) (now : Int) (hr : RegistryInv p) (hb : PtrBound p) :
    RegistryInv (checkTimeoutConn p now) ∧ PtrBound (checkTimeoutConn p now) := by
  refine ⟨sweep_inv _ _ (markExpired_inv p now hr), ?_, ?_⟩
  · intro k ptr hk
    have h1 := sweep_idGet_some _ _ k ptr hk
    have h2 := sweep_nextPtr p.localIdToConnMap
      { p with heap := markExpired now p.timeout p.localIdToConnMap p.heap }
    exact lt_of_lt_of_eq (hb.1 k ptr h1) h2.symm
  · intro a ptr ha
    have h1 := sweep_addrGet_some _ _ a ptr ha
    have h2 := sweep_nextPtr p.localIdToConnMap
      { p with heap := markExpired now p.timeout p.localIdToConnMap p.heap }
    exact lt_of_lt_of_eq (hb.2 a ptr h1) h2.symm

theorem catchFold_registry (es : ConnMap) (p : Client) :
    (es.foldl catchStep p).localIdToConnMap = p.localIdToConnMap ∧
    (es.foldl catchStep p).localAddrToConnMap = p.localAddrToConnMap ∧
    (es.foldl catchStep p).heap = p.heap ∧
    (es.foldl catchStep p).nextPtr = p.nextPtr ∧
    (es.foldl catchStep p).sendPacket = p.sendPacket ∧
    (es.foldl catchStep p).catchRate = p.catchRate := by
  induction es generalizing p with
  | nil => exact ⟨rfl, rfl, rfl, rfl, rfl, rfl⟩
  | cons e es ih =>
    rw [List.foldl_cons]
    exact ih (catchStep p e)

theorem sendCatch_registry (p : Client) :
    (sendCatch p).localIdToConnMap = p.localIdToConnMap ∧
    (sendCatch p).localAddrToConnMap = p.localAddrToConnMap ∧
    (sendCatch p).heap = p.heap ∧
    (sendCatch p).nextPtr = p.nextPtr ∧
    (sendCatch p).sendPacket = p.sendPacket ∧
    (sendCatch p).catchRate = p.catchRate := by
  unfold sendCatch
  split_ifs
  · exact catchFold_registry _ p
  · exact ⟨rfl, rfl, rfl, rfl, rfl, rfl⟩

theorem sendCatch_inv (p : Client) (hr : RegistryInv p) (hb : PtrBound p) :
    RegistryInv (sendCatch p) ∧ PtrBound (sendCatch p) := by
  obtain ⟨h1, h2, h3, h4, _, _⟩ := sendCatch_registry p
  exact ⟨RegistryInv_of_same hr h1 h2 (fun i => by rw [h3]; exact ⟨rfl, rfl⟩),
    PtrBound_of_same hb h1 h2 h4⟩

theorem ping_showNet_inv (p : Client) (b : List Nat) (hr : RegistryInv p) (hb : PtrBound p) :
    RegistryInv (showNet (ping p b)) ∧ PtrBound (showNet (ping p b)) := by
  unfold showNet ping
  split_ifs
  · exact ⟨RegistryInv_of_same hr rfl rfl (fun _ => ⟨rfl, rfl⟩), PtrBound_of_same hb rfl rfl rfl⟩
  · exact ⟨RegistryInv_of_same hr rfl rfl (fun _ => ⟨rfl, rfl⟩), PtrBound_of_same hb rfl rfl rfl⟩

theorem step_inv (p : Client) (e : Event) (hr : RegistryInv p) (hb : PtrBound p)
    (hf : uniqueIdFresh p e = true) : RegistryInv (step p e) ∧ PtrBound (step p e) := by
  cases e with
  | accept now srcaddr uuid bytes =>
    refine Accept_inv p now srcaddr uuid bytes hr hb ?_
    intro hnone
    simp only [uniqueIdFresh, hnone, Option.isSome_none, Bool.false_or,
      Option.isNone_iff_eq_none] at hf
    exact hf
  | packet pkt now writeErr => exact processPacket_inv p pkt now writeErr hr hb
  | reap now => exact checkTimeoutConn_inv p now hr hb
  | tick now b =>
    obtain ⟨h1, h2⟩ := checkTimeoutConn_inv p now hr hb
    exact ping_showNet_inv _ b h1 h2
  | catchTick => exact sendCatch_inv p hr hb

theorem run_inv (evs : List Event) (p : Client) (hr : RegistryInv p) (hb : PtrBound p)
    (hf : freshRun p evs = true) : RegistryInv (run p evs) ∧ PtrBound (run p evs) := by
  induction evs generalizing p with
  | nil => exact ⟨hr, hb⟩
  | cons e es ih =>
    simp only [freshRun, Bool.and_eq_true] at hf
    obtain ⟨h1, h2⟩ := step_inv p e hr hb hf.1
    exact ih (step p e) h1 h2 hf.2

theorem emptyRegistry_inv (p : Client) (hid : p.localIdToConnMap = [])
    (haddr : p.localAddrToConnMap = []) : RegistryInv p ∧ PtrBound p := by
  refine ⟨⟨?_, ?_, ?_, ?_⟩, ?_, ?_⟩
  · simp [hid]
  · simp [haddr]
  · intro k ptr hk
    simp [hid, mapGet] at hk
  · intro a ptr ha
    simp [haddr, mapGet] at ha
  · intro k ptr hk
    simp [hid, mapGet] at hk
  · intro a ptr ha
    simp [haddr, mapGet] at ha

/-! ## The registry in UDP mode -/

/-- C3: in UDP mode, with `UniqueId` returning an id that is not a key of the id
index whenever the acceptor mints one, every state reached from an empty registry
by any sequence of events (acceptor datagram, `processPacket`, `checkTimeoutConn`,
also inside the one-second tick, and the catch tick) satisfies the registry
invariant (unique keys; every record of either index is stored under its own
endpoint text and under its own id in the other index), both indices hold the
same records, and two distinct registered endpoints map to two distinct records
with distinct ids, each found again, and only it, under its endpoint and under
its id. -/
theorem udp_registry_consistent (p0 : Client) (evs : List Event)
    (hid : p0.localIdToConnMap = []) (haddr : p0.localAddrToConnMap = [])
    (hf : freshRun p0 evs = true) :
    RegistryInv (run p0 evs) ∧
    (∀ ptr, ptr ∈ (run p0 evs).localAddrToConnMap.map Prod.snd ↔
      ptr ∈ (run p0 evs).localIdToConnMap.map Prod.snd) ∧
    (∀ E1 E2 r1 r2, E1 ≠ E2 →
      mapGet (run p0 evs).localAddrToConnMap E1 = some r1 →
      mapGet (run p0 evs).localAddrToConnMap E2 = some r2 →
      r1 ≠ r2 ∧ ((run p0 evs).heap r1).id ≠ ((run p0 evs).heap r2).id ∧
      ((run p0 evs).heap r1).ipaddr = some E1 ∧ ((run p0 evs).heap r2).ipaddr = some E2 ∧
      mapGet (run p0 evs).localIdToConnMap ((run p0 evs).heap r1).id = some r1 ∧
      mapGet (run p0 evs).localIdToConnMap ((run p0 evs).heap r2).id = some r2) := by
  obtain ⟨h0, hb0⟩ := emptyRegistry_inv p0 hid haddr
  obtain ⟨hr, _⟩ := run_inv evs p0 h0 hb0 hf
  refine ⟨hr, ?_, ?_⟩
  · intro ptr
    constructor
    · intro h
      obtain ⟨e, he, rfl⟩ := List.mem_map.1 h
      have h1 := (hr.addrToId e.1 e.2 (mapGet_of_mem hr.addrKeys he)).2
      exact List.mem_map.2 ⟨(_, e.2), mem_of_mapGet h1, rfl⟩
    · intro h
      obtain ⟨e, he, rfl⟩ := List.mem_map.1 h
      obtain ⟨_, a, _, h1⟩ := hr.idToAddr e.1 e.2 (mapGet_of_mem hr.idKeys he)
      exact List.mem_map.2 ⟨(a, e.2), mem_of_mapGet h1, rfl⟩
  · intro E1 E2 r1 r2 hne h1 h2
    obtain ⟨a1, b1⟩ := hr.addrToId E1 r1 h1
    obtain ⟨a2, b2⟩ := hr.addrToId E2 r2 h2
    have hr12 : r1 ≠ r2 := by
      intro h
      rw [h, a2] at a1
      cases a1
      exact hne rfl
    refine ⟨hr12, ?_, a1, a2, b1, b2⟩
    intro h
    rw [h, b2] at b1
    cases b1
    exact hr12 rfl

theorem udp_registry_consistent_witness :
    freshRun demoClient demoEvents = true ∧ RegistryInv (run demoClient demoEvents) :=
  ⟨by decide, (udp_registry_consistent demoClient demoEvents rfl rfl (by decide)).1⟩

/-! ## The timeout boundary -/

theorem wrapInt64_of_range (x : Int) (h1 : -(2 ^ 63) ≤ x) (h2 : x < 2 ^ 63) :
    wrapInt64 x = x := by
  unfold wrapInt64
  omega

theorem expired_iff (now timeout : Int) (c : ClientConn)
    (hT : -9223372036 ≤ timeout ∧ timeout ≤ 9223372036) :
    expired now timeout c = true ↔ now - c.activeTime > Second * timeout := by
  have hw : wrapInt64 (Second * timeout) = Second * timeout := by
    apply wrapInt64_of_range <;> unfold Second <;> omega
  unfold expired
  rw [hw, decide_eq_true_iff]
  unfold timeSub maxDuration minDuration Second
  split_ifs <;> omega

theorem sweepStep_keeps (p : Client) (e : String × Nat) (k : String) (ptr : Nat)
    (hr : RegistryInv p) (hk : mapGet p.localIdToConnMap k = some ptr)
    (hopen : (p.heap ptr).close = false) :
    mapGet (sweepStep p e).localIdToConnMap k = some ptr := by
  unfold sweepStep
  split_ifs with h1 h2
  · have hid := (hr.idToAddr e.1 e.2 h1).1
    have hke : k ≠ e.1 := by
      intro hke
      rw [hke, h1] at hk
      cases hk
      rw [h2] at hopen
      cases hopen
    unfold Close
    rw [hid, if_pos (by rw [h1]; simp)]
    simp only [mapGet_mapDelete]
    rw [if_neg hke]
    exact hk
  · exact hk
  · exact hk

theorem sweep_keeps (es : ConnMap) (p : Client) (k : String) (ptr : Nat)
    (hr : RegistryInv p) (hk : mapGet p.localIdToConnMap k = some ptr)
    (hopen : (p.heap ptr).close = false) :
    mapGet (es.foldl sweepStep p).localIdToConnMap k = some ptr := by
  induction es generalizing p with
  | nil => exact hk
  | cons e es ih =>
    rw [List.foldl_cons]
    refine ih _ (sweepStep_inv p e hr) (sweepStep_keeps p e k ptr hr hk hopen) ?_
    rw [sweepStep_heap]
    exact hopen

/-- C4 (as amended): for a registry that satisfies the UDP registry invariant and
a timeout of whole seconds that fits a `time.Duration` (at most 9223372036 in
absolute value), a registered connection that is not marked closing survives
`checkTimeoutConn` exactly when `now - activeTime` is at most the timeout: at or
below the bound it is not marked and stays in both indices, above it it is
marked closing and is gone from both indices after the same sweep. Clock
readings are in nanoseconds. -/
theorem checkTimeoutConn_boundary (p : Client) (now : Int) (k : String) (ptr : Nat)
    (hr : RegistryInv p) (hT : -9223372036 ≤ p.timeout ∧ p.timeout ≤ 9223372036)
    (hreg : mapGet p.localIdToConnMap k = some ptr) (hopen : (p.heap ptr).close = false) :
    (now - (p.heap ptr).activeTime ≤ Second * p.timeout →
      ((checkTimeoutConn p now).heap ptr).close = false ∧
      mapGet (checkTimeoutConn p now).localIdToConnMap k = some ptr ∧
      mapGet (checkTimeoutConn p now).localAddrToConnMap (addrString (p.heap ptr).ipaddr)
        = some ptr) ∧
    (now - (p.heap ptr).activeTime > Second * p.timeout →
      ((checkTimeoutConn p now).heap ptr).close = true ∧
      mapGet (checkTimeoutConn p now).localIdToConnMap k = none ∧
      mapGet (checkTimeoutConn p now).localAddrToConnMap (addrString (p.heap ptr).ipaddr)
        = none) := by
  have hq : checkTimeoutConn p now =
      p.localIdToConnMap.foldl sweepStep
        { p with heap := markExpired now p.timeout p.localIdToConnMap p.heap } := rfl
  have hr1 := markExpired_inv p now hr
  have hrq : RegistryInv (checkTimeoutConn p now) := sweep_inv _ _ hr1
  have hheap : (checkTimeoutConn p now).heap =
      markExpired now p.timeout p.localIdToConnMap p.heap := by
    rw [hq, sweep_heap]
  obtain ⟨hid, a, hip, haddr⟩ := hr.idToAddr k ptr hreg
  rw [hip]
  simp only [addrString]
  constructor
  · intro hle
    have hx : expired now p.timeout (p.heap ptr) = false := by
      rw [← Bool.not_eq_true, expired_iff now p.timeout _ hT]
      omega
    have hsame : markExpired now p.timeout p.localIdToConnMap p.heap ptr = p.heap ptr :=
      markExpired_of_not_expired _ _ _ _ _ hx
    have hkeep : mapGet (checkTimeoutConn p now).localIdToConnMap k = some ptr := by
      rw [hq]
      refine sweep_keeps _ _ k ptr hr1 hreg ?_
      show (markExpired now p.timeout p.localIdToConnMap p.heap ptr).close = false
      rw [hsame]
      exact hopen
    refine ⟨by rw [hheap, hsame]; exact hopen, hkeep, ?_⟩
    obtain ⟨_, a', hip', haddr'⟩ := hrq.idToAddr k ptr hkeep
    rw [hheap, markExpired_ipaddr, hip] at hip'
    cases hip'
    exact haddr'
  · intro hgt
    have hx : expired now p.timeout (p.heap ptr) = true :=
      (expired_iff now p.timeout _ hT).2 hgt
    have hmem : (k, ptr) ∈ p.localIdToConnMap := mem_of_mapGet hreg
    have hclose : ((checkTimeoutConn p now).heap ptr).close = true := by
      rw [hheap]
      exact markExpired_close_of_expired _ _ _ _ _ (List.mem_map_of_mem Prod.snd hmem) hx
    have hset : Settled (checkTimeoutConn p now) (k, ptr) := by
      rw [hq]
      exact sweep_settled _ _ _ hmem
    have hidq : ((checkTimeoutConn p now).heap ptr).id = k := by
      rw [hheap, markExpired_id]
      exact hid
    have hgone : mapGet (checkTimeoutConn p now).localIdToConnMap k = none := by
      cases hg : mapGet (checkTimeoutConn p now).localIdToConnMap k with
      | none => rfl
      | some v =>
        have h1 : mapGet p.localIdToConnMap k = some v := by
          rw [hq] at hg
          have h0 := sweep_idGet_some _ _ k v hg
          exact h0
        rw [hreg] at h1
        cases h1
        have h2 := hset hg hclose
        rw [hidq, hg] at h2
        cases h2
    refine ⟨hclose, hgone, ?_⟩
    cases hg : mapGet (checkTimeoutConn p now).localAddrToConnMap a with
    | none => rfl
    | some v =>
      have h1 : mapGet p.localAddrToConnMap a = some v := by
        rw [hq] at hg
        have h0 := sweep_addrGet_some _ _ a v hg
        exact h0
      rw [haddr] at h1
      cases h1
      have h2 := (hrq.addrToId a ptr hg).2
      rw [hidq, hgone] at h2
      cases h2

set_option maxRecDepth 100000 in
theorem checkTimeoutConn_boundary_witness :
    (RegistryInv (run demoClient demoEvents) ∧
      (-9223372036 ≤ (run demoClient demoEvents).timeout ∧
        (run demoClient demoEvents).timeout ≤ 9223372036) ∧
      mapGet (run demoClient demoEvents).localIdToConnMap "id-1" = some 0 ∧
      ((run demoClient demoEvents).heap 0).close = false) ∧
    5000002000 - ((run demoClient demoEvents).heap 0).activeTime
      = Second * (run demoClient demoEvents).timeout ∧
    ((checkTimeoutConn (run demoClient demoEvents) 5000002000).heap 0).close = false ∧
    mapGet (checkTimeoutConn (run demoClient demoEvents) 5000002000).localIdToConnMap "id-1"
      = some 0 ∧
    mapGet (checkTimeoutConn (run demoClient demoEvents) 5000002000).localAddrToConnMap
      (addrString ((run demoClient demoEvents).heap 0).ipaddr) = some 0 :=
  ⟨⟨(run_inv demoEvents demoClient (emptyRegistry_inv demoClient rfl rfl).1
      (emptyRegistry_inv demoClient rfl rfl).2 (by decide)).1, by decide, by decide, by decide⟩,
    by decide,
    (checkTimeoutConn_boundary (run demoClient demoEvents) 5000002000 "id-1" 0
      (run_inv demoEvents demoClient (emptyRegistry_inv demoClient rfl rfl).1
        (emptyRegistry_inv demoClient rfl rfl).2 (by decide)).1
      (by decide) (by decide) (by decide)).1 (by decide)⟩

/-- C4 (counterexample to the claim as stated): with the timeout 9223372037 s the
product `time.Second * time.Duration(p.timeout)` wraps to a negative duration; a
connection registered and last active at the very reading `now` (so that
`now - activeTime` is 0, far below the timeout) is marked closing and removed
from both indices. -/
theorem checkTimeoutConn_overflowing_timeout :
    mapGet (Accept (NewClient 7 9223372037 1 2 0 9 false "server" "10.0.0.9" "target") 0
      "127.0.0.1:40000" "id-1" [3]).localIdToConnMap "id-1" = some 0 ∧
    ((Accept (NewClient 7 9223372037 1 2 0 9 false "server" "10.0.0.9" "target") 0
      "127.0.0.1:40000" "id-1" [3]).heap 0).close = false ∧
    0 - ((Accept (NewClient 7 9223372037 1 2 0 9 false "server" "10.0.0.9" "target") 0
      "127.0.0.1:40000" "id-1" [3]).heap 0).activeTime ≤ Second * 9223372037 ∧
    ((checkTimeoutConn (Accept (NewClient 7 9223372037 1 2 0 9 false "server" "10.0.0.9" "target") 0
      "127.0.0.1:40000" "id-1" [3]) 0).heap 0).close = true ∧
    (checkTimeoutConn (Accept (NewClient 7 9223372037 1 2 0 9 false "server" "10.0.0.9" "target") 0
      "127.0.0.1:40000" "id-1" [3]) 0).localIdToConnMap = [] ∧
    (checkTimeoutConn (Accept (NewClient 7 9223372037 1 2 0 9 false "server" "10.0.0.9" "target") 0
      "127.0.0.1:40000" "id-1" [3]) 0).localAddrToConnMap = [] := by
  decide

/-! ## The UDP round trip -/

theorem catchFold_out (es : ConnMap) (p : Client) :
    ∃ out seq cnt,
      es.foldl catchStep p =
        { p with icmpOut := p.icmpOut ++ out, sequence := seq, sendCatchPacket := cnt } ∧
      out.map ICMPSend.connId = es.map (fun e => (p.heap e.2).id) ∧
      ∀ x ∈ out, x.msgType = MsgType.CATCH ∧ x.data = [] := by
  induction es generalizing p with
  | nil => exact ⟨[], p.sequence, p.sendCatchPacket, by simp, rfl, by simp⟩
  | cons e es ih =>
    obtain ⟨out, seq, cnt, h1, h2, h3⟩ := ih (catchStep p e)
    refine ⟨icmpCall p (p.heap e.2).id MsgType.CATCH [] :: out, seq, cnt, ?_, ?_, ?_⟩
    · rw [List.foldl_cons, h1]
      simp [catchStep]
    · simp only [List.map_cons, h2]
      rfl
    · intro x hx
      rcases List.mem_cons.1 hx with h | h
      · rw [h]
        exact ⟨rfl, rfl⟩
      · exact h3 x h

theorem sendCatch_out (p : Client) (hc : p.catchRate > 0) :
    ∃ out seq cnt,
      sendCatch p =
        { p with icmpOut := p.icmpOut ++ out, sequence := seq, sendCatchPacket := cnt } ∧
      out.map ICMPSend.connId = p.localIdToConnMap.map (fun e => (p.heap e.2).id) ∧
      ∀ x ∈ out, x.msgType = MsgType.CATCH ∧ x.data = [] := by
  unfold sendCatch
  rw [if_pos hc]
  exact catchFold_out _ p

/-- C9: with a positive catch rate, one `sendCatch` emits one packet per entry of
the id index, that many in all, each of type CATCH with an empty payload and
carrying the id of the entry's record (which is the entry's key whenever the
index is keyed by the records' ids, as the registry invariant says), and leaves
both indices and every record as they were; with the catch rate 0 it leaves the
whole state as it was, so it emits nothing. -/
theorem sendCatch_one_per_connection (p : Client) :
    (p.catchRate > 0 →
      ∃ out,
        (sendCatch p).icmpOut = p.icmpOut ++ out ∧
        out.length = p.localIdToConnMap.length ∧
        out.map ICMPSend.connId = p.localIdToConnMap.map (fun e => (p.heap e.2).id) ∧
        (∀ x ∈ out, x.msgType = MsgType.CATCH ∧ x.data = []) ∧
        ((∀ e ∈ p.localIdToConnMap, (p.heap e.2).id = e.1) →
          out.map ICMPSend.connId = p.localIdToConnMap.map Prod.fst) ∧
        (sendCatch p).localIdToConnMap = p.localIdToConnMap ∧
        (sendCatch p).localAddrToConnMap = p.localAddrToConnMap ∧
        (sendCatch p).heap = p.heap) ∧
    (p.catchRate = 0 → sendCatch p = p) := by
  constructor
  · intro hc
    obtain ⟨out, seq, cnt, h1, h2, h3⟩ := sendCatch_out p hc
    refine ⟨out, by rw [h1], ?_, h2, h3, ?_, by rw [h1], by rw [h1], by rw [h1]⟩
    · have := congrArg List.length h2
      simpa using this
    · intro hk
      rw [h2]
      exact List.map_congr_left hk
  · intro hc
    unfold sendCatch
    rw [if_neg (by omega)]

set_option maxRecDepth 100000 in
theorem sendCatch_one_per_connection_witness :
    (run demoClient demoEvents).catchRate > 0 ∧
    (∀ e ∈ (run demoClient demoEvents).localIdToConnMap,
      ((run demoClient demoEvents).heap e.2).id = e.1) ∧
    (run demoClient demoEvents).localIdToConnMap.length = 2 ∧
    ∃ out,
      (sendCatch (run demoClient demoEvents)).icmpOut =
        (run demoClient demoEvents).icmpOut ++ out ∧
      out.length = (run demoClient demoEvents).localIdToConnMap.length :=
  ⟨by decide, by decide, by decide,
    ((sendCatch_one_per_connection (run demoClient demoEvents)).1 (by decide)).imp
      (fun _ h => ⟨h.1, h.2.1⟩)⟩

/-! ## The catch ticker -/

theorem sendCatch_iterate (n : Nat) (p : Client) (hc : p.catchRate > 0) :
    ∃ out seq cnt,
      sendCatch^[n] p =
        { p with icmpOut := p.icmpOut ++ out, sequence := seq, sendCatchPacket := cnt } ∧
      out.length = n * p.localIdToConnMap.length ∧
      ∀ x ∈ out, x.msgType = MsgType.CATCH ∧ x.data = [] := by
  induction n with
  | zero => exact ⟨[], p.sequence, p.sendCatchPacket, by simp, by simp, by simp⟩
  | succ n ih =>
    obtain ⟨out, seq, cnt, h1, h2, h3⟩ := ih
    have hc' : (sendCatch^[n] p).catchRate > 0 := by
      rw [h1]
      exact hc
    obtain ⟨out', seq', cnt', g1, g2, g3⟩ := sendCatch_out (sendCatch^[n] p) hc'
    refine ⟨out ++ out', seq', cnt', ?_, ?_, ?_⟩
    · rw [Function.iterate_succ_apply', g1, h1]
      simp
    · have hl := congrArg List.length g2
      rw [h1] at hl
      simp only [List.length_map] at hl
      rw [List.length_append, h2, hl]
      ring
    · intro x hx
      rcases List.mem_append.1 hx with h | h
      · exact h3 x h
      · exact g3 x h

/-- C10: for a catch rate `r > 0` the value `inter` computed by `Run` is
`1000 / r` (integer division), raised to 1 when the quotient is 0, so at least 1;
the ticker period is that many milliseconds. For `r = 10` it is exactly 100 ms,
which gives 10 ticks in a second, and 10 consecutive `sendCatch` ticks on a
client with that rate emit `10 * N` packets, all of type CATCH, where `N` is the
number of entries of the id index. -/
theorem catch_tick_period (r : Int) (hr : r > 0) (p : Client) (hp : p.catchRate = 10) :
    catchInter r = (if 1000 / r = 0 then 1 else 1000 / r) ∧
    1 ≤ catchInter r ∧
    catchPeriod r = Millisecond * catchInter r ∧
    catchInter 10 = 100 ∧
    catchPeriod 10 = 100 * Millisecond ∧
    Second / catchPeriod 10 = 10 ∧
    ∃ out,
      (sendCatch^[10] p).icmpOut = p.icmpOut ++ out ∧
      out.length = 10 * p.localIdToConnMap.length ∧
      ∀ x ∈ out, x.msgType = MsgType.CATCH := by
  have hdiv : Int.tdiv 1000 r = 1000 / r := Int.tdiv_eq_ediv (by decide) (le_of_lt hr)
  have hnn : 0 ≤ 1000 / r := Int.ediv_nonneg (by decide) (le_of_lt hr)
  have hle : 1000 / r ≤ 1000 := Int.ediv_le_self _ (by decide)
  have hi : catchInter r = (if 1000 / r = 0 then 1 else 1000 / r) := by
    unfold catchInter
    rw [if_pos hr, hdiv]
    split_ifs <;> omega
  have hge : 1 ≤ catchInter r := by
    rw [hi]
    split_ifs <;> omega
  have hle' : catchInter r ≤ 1000 := by
    rw [hi]
    split_ifs <;> omega
  refine ⟨hi, hge, ?_, by decide, by decide, by decide, ?_⟩
  · unfold catchPeriod
    apply wrapInt64_of_range <;> unfold Millisecond <;> omega
  · obtain ⟨out, seq, cnt, h1, h2, h3⟩ := sendCatch_iterate 10 p (by omega)
    exact ⟨out, by rw [h1], h2, fun x hx => (h3 x hx).1⟩

set_option maxRecDepth 100000 in
theorem catch_tick_period_witness :
    (7 : Int) > 0 ∧ (run demoClient demoEvents).catchRate = 10 ∧
    catchInter 7 = 142 ∧
    ∃ out,
      (sendCatch^[10] (run demoClient demoEvents)).icmpOut =
        (run demoClient demoEvents).icmpOut ++ out ∧
      out.length = 10 * (run demoClient demoEvents).localIdToConnMap.length :=
  ⟨by decide, by decide,
    (catch_tick_period 7 (by decide) (run demoClient demoEvents) (by decide)).1.trans
      (by decide),
    (catch_tick_period 7 (by decide) (run demoClient demoEvents)
      (by decide)).2.2.2.2.2.2.imp (fun _ h => ⟨h.1, h.2.1⟩)⟩

/-! ## The liveness ping -/

/-- C1: a decoded packet with a non-negative `rproto`, or a key other than the
configured one, or an echo id other than the instance id, leaves the whole client
state as it was: both registry indices, every connection record (`activeTime`,
`close`), the six counters, the sequence number, and the trace of local writes
(no `WriteToUDP` call is made). -/
theorem processPacket_rejected_no_effect (p : Client) (packet : Packet) (now : Int)
    (writeErr : Bool)
    (h : packet.rproto ≥ 0 ∨ packet.key ≠ p.key ∨ packet.echoId ≠ p.id) :
    processPacket p packet now writeErr = p := by
  unfold processPacket
  by_cases h1 : packet.rproto ≥ 0
  · rw [if_pos h1]
  · rw [if_neg h1]
    by_cases h2 : packet.key ≠ p.key
    · rw [if_pos h2]
    · rw [if_neg h2]
      by_cases h3 : packet.echoId ≠ p.id
      · rw [if_pos h3]
      · rcases h with h | h | h
        · exact absurd h h1
        · exact absurd h h2
        · exact absurd h h3

theorem processPacket_rejected_no_effect_witness :
    ((⟨MsgType.DATA, [1, 2], "id-1", -1, 8, 7, "10.0.0.1"⟩ : Packet).key ≠
        (Accept (NewClient 7 5 1 2 0 9 false "server" "10.0.0.9" "target") 0 "127.0.0.1:40000" "id-1" [3]).key) ∧
      processPacket
        (Accept (NewClient 7 5 1 2 0 9 false "server" "10.0.0.9" "target") 0 "127.0.0.1:40000" "id-1" [3])
        ⟨MsgType.DATA, [1, 2], "id-1", -1, 8, 7, "10.0.0.1"⟩ 1 false =
        Accept (NewClient 7 5 1 2 0 9 false "server" "10.0.0.9" "target") 0 "127.0.0.1:40000" "id-1" [3] :=
  ⟨by decide,
    processPacket_rejected_no_effect _ _ 1 false (Or.inr (Or.inl (by decide)))⟩

/-- C7: a packet that passes the `rproto`, key and echo-id checks, is not a
PING, and whose id is not a key of the id index is dropped: the client state is
left as it was, so no local write is made, no record is marked closing, and the
registry and the receive counters are unchanged. -/
theorem processPacket_unknown_id_dropped (p : Client) (packet : Packet) (now : Int)
    (writeErr : Bool) (h1 : packet.rproto < 0) (h2 : packet.key = p.key)
    (h3 : packet.echoId = p.id) (h4 : packet.msgType ≠ MsgType.PING)
    (h5 : mapGet p.localIdToConnMap packet.id = none) :
    processPacket p packet now writeErr = p := by
  unfold processPacket
  rw [if_neg (not_le.2 h1), if_neg (not_not.2 h2), if_neg (not_not.2 h3), if_neg h4, h5]

theorem processPacket_unknown_id_dropped_witness :
    mapGet (checkTimeoutConn
        (Accept (NewClient 7 5 1 2 0 9 false "server" "10.0.0.9" "target") 0 "127.0.0.1:40000" "id-1" [3])
        5000000001).localIdToConnMap
      (⟨MsgType.DATA, [1, 2], "id-1", -1, 9, 7, "10.0.0.1"⟩ : Packet).id = none ∧
    processPacket
      (checkTimeoutConn
        (Accept (NewClient 7 5 1 2 0 9 false "server" "10.0.0.9" "target") 0 "127.0.0.1:40000" "id-1" [3])
        5000000001)
      ⟨MsgType.DATA, [1, 2], "id-1", -1, 9, 7, "10.0.0.1"⟩ 5000000002 false =
      checkTimeoutConn
        (Accept (NewClient 7 5 1 2 0 9 false "server" "10.0.0.9" "target") 0 "127.0.0.1:40000" "id-1" [3])
        5000000001 :=
  ⟨by decide,
    processPacket_unknown_id_dropped _ _ 5000000002 false (by decide) (by decide) (by decide)
      (by decide) (by decide)⟩

/-! ## Removal from the registry -/

theorem Close_udp_record_removes_both (p : Client) (k : String) (ptr : Nat)
    (hr : RegistryInv p) (hk : mapGet p.localIdToConnMap k = some ptr) :
    mapGet (Close p (p.heap ptr)).localIdToConnMap k = none ∧
    ∃ a, (p.heap ptr).ipaddr = some a ∧ mapGet p.localAddrToConnMap a = some ptr ∧
      mapGet (Close p (p.heap ptr)).localAddrToConnMap a = none := by
  obtain ⟨hid, a, hip, haddr⟩ := hr.idToAddr k ptr hk
  unfold Close
  rw [hid, if_pos (by rw [hk]; simp), hip]
  simp only [addrString, mapGet_mapDelete, if_true]
  exact ⟨trivial, a, rfl, haddr, by simp⟩

theorem Close_unregistered_removes_neither (p : Client) (c : ClientConn)
    (h : mapGet p.localIdToConnMap c.id = none) : Close p c = p := by
  unfold Close
  rw [if_neg (by simp [h])]

/-- C2 (the defect): a record registered by the TCP handler is entered in the
endpoint index under `tcpaddr.String()`, but `Close` deletes the key
`ipaddr.String()`, which for such a record is `<nil>`; the id entry goes and the
endpoint entry stays. -/
theorem Close_tcp_record_keeps_endpoint_entry :
    mapGet (AcceptTcpConn (NewClient 7 5 1 2 0 9 true "server" "10.0.0.9" "target") 0 "id-1"
      "127.0.0.1:5000").localIdToConnMap "id-1" = some 0 ∧
    mapGet (AcceptTcpConn (NewClient 7 5 1 2 0 9 true "server" "10.0.0.9" "target") 0 "id-1"
      "127.0.0.1:5000").localAddrToConnMap "127.0.0.1:5000" = some 0 ∧
    (Close (AcceptTcpConn (NewClient 7 5 1 2 0 9 true "server" "10.0.0.9" "target") 0 "id-1" "127.0.0.1:5000")
      ((AcceptTcpConn (NewClient 7 5 1 2 0 9 true "server" "10.0.0.9" "target") 0 "id-1"
        "127.0.0.1:5000").heap 0)).localIdToConnMap = [] ∧
    (Close (AcceptTcpConn (NewClient 7 5 1 2 0 9 true "server" "10.0.0.9" "target") 0 "id-1" "127.0.0.1:5000")
      ((AcceptTcpConn (NewClient 7 5 1 2 0 9 true "server" "10.0.0.9" "target") 0 "id-1"
        "127.0.0.1:5000").heap 0)).localAddrToConnMap = [("127.0.0.1:5000", 0)] := by
  decide

/-! ## Idempotence of the reaper -/

/-- C5: running `checkTimeoutConn` twice in a row with the same clock reading
gives the same client state as running it once: the second sweep removes nothing
from either index and changes no record. -/
theorem checkTimeoutConn_idempotent (p : Client) (now : Int) :
    checkTimeoutConn (checkTimeoutConn p now) now = checkTimeoutConn p now := by
  have hq : checkTimeoutConn p now =
      p.localIdToConnMap.foldl sweepStep
        { p with heap := markExpired now p.timeout p.localIdToConnMap p.heap } := rfl
  generalize hqd : checkTimeoutConn p now = q at hq
  have hheap : q.heap = markExpired now p.timeout p.localIdToConnMap p.heap := by
    rw [hq, sweep_heap]
  have htime : q.timeout = p.timeout := by
    rw [hq, sweep_timeout]
  have hmem : ∀ e ∈ q.localIdToConnMap, e ∈ p.localIdToConnMap := by
    intro e he
    rw [hq] at he
    have h1 := sweep_idMem _ _ e he
    exact h1
  have hsettled : ∀ e ∈ q.localIdToConnMap, Settled q e := by
    intro e he
    rw [hq]
    exact sweep_settled _ _ e (hmem e he)
  have hmark : markExpired now q.timeout q.localIdToConnMap q.heap = q.heap := by
    apply markExpired_eq_self
    intro e he hx
    rw [hheap, htime, markExpired_expired] at hx
    rw [hheap]
    exact markExpired_close_of_expired now p.timeout _ _ _
      (List.mem_map_of_mem Prod.snd (hmem e he)) hx
  have hunf : checkTimeoutConn q now =
      q.localIdToConnMap.foldl sweepStep
        { q with heap := markExpired now q.timeout q.localIdToConnMap q.heap } := rfl
  rw [hunf, hmark]
  exact sweep_eq_self _ q hsettled

end Pingtunnel
